import Mathlib

/-!
Verification of the document registry (`DocCollection`) of automerge-repo.

The file shallowly embeds `src/packages/automerge-repo/src/DocCollection.ts`.
The registry is modelled as an explicit state:

* a heap of allocated `DocHandle` objects, addressed by allocation references
  (`HandleRef`), so that object identity (the same handle instance) is the
  equality of references;
* the private field `#handleCache`, a map from document identifier to the
  reference of its cached handle;
* a log of synchronously emitted events, and a queue of deferred emissions
  (the `setTimeout` in `find` schedules its notification there, to fire only
  after the call has returned).

TypeScript strings are embedded as `List Char`.  `DocumentId` and
`AutomergeUrl` are both branded strings in the source, so both are `List Char`
here; `delete` receives either and dispatches on `isValidAutomergeUrl`,
exactly as the source does.  Thrown exceptions are `Except` errors; since the
registry throws before any mutation, an error leaves the state untouched.

`DocHandle` (DocHandle.ts) and the url codec (DocUrl.ts) are not among the
source files; they are modelled from the spec where noted.
-/

/-- DocumentId is a branded string in the source; embedded as a list of
characters. -/
abbrev DocumentId := List Char

/-- AutomergeUrl is a branded string in the source; embedded as a list of
characters. -/
abbrev AutomergeUrl := List Char

/-- PeerId is a branded string in the source; embedded as a list of
characters. -/
abbrev PeerId := List Char

/-- Lifecycle states of a document handle, per the handle state machine. -/
inductive HandleState where
  | idle
  | loading
  | requesting
  | ready
  | unavailable
  | deleted
deriving DecidableEq, Repr

/-- The document value is owned by the external document core and is not
interpreted here; the registry only ever installs the empty value. -/
inductive DocValue where
  | emptyDoc
deriving DecidableEq, Repr

/-- Modelled from the spec: the observable fields of a DocHandle
(DocHandle.ts is not among the source files).  A handle owns one document
identifier, remembers whether it was constructed as a new document, carries
its lifecycle state and, when present, the in-memory document value. -/
structure DocHandle where
  documentId : DocumentId
  isNew : Bool
  state : HandleState
  doc : Option DocValue
deriving DecidableEq, Repr

/-- Modelled from the spec: DocHandle construction (DocHandle.ts is not among
the source files).  Construction with isNew = true initializes an empty
document value immediately and the handle is ready; construction with
isNew = false triggers a storage load and the handle enters loading. -/
def mkDocHandle (documentId : DocumentId) (isNew : Bool) : DocHandle :=
  { documentId := documentId
    isNew := isNew
    state := if isNew then .ready else .loading
    doc := if isNew then some .emptyDoc else none }

/-- Modelled from the spec: handle-level deletion (DocHandle.ts is not among
the source files).  It transitions the handle to the deleted state and
releases the in-memory value; the deletion notification it emits is recorded
by the caller in the registry event log. -/
def DocHandle.del (h : DocHandle) : DocHandle :=
  { h with state := .deleted, doc := none }

/-- Snapshot read of the unavailable state, as used by `find`. -/
def DocHandle.isUnavailable (h : DocHandle) : Bool :=
  h.state = .unavailable

/-! ## Url codec

Modelled from the spec (DocUrl.ts is not among the source files): a url is
the scheme prefix followed by the identifier text plus a trailing checksum
character; validation checks the prefix and the checksum before the
identifier is trusted, and parsing strips both. -/

/-- Scheme prefix of every automerge url. -/
def urlScheme : List Char := "automerge:".data

/-- Modelled from the spec: the checksum appended to the encoded identifier,
a single character determined by the identifier text. -/
def checksumChar (id : DocumentId) : Char :=
  Char.ofNat (97 + (id.foldl (fun a c => a + c.toNat) 0) % 26)

/-- Boolean prefix test on character lists. -/
def startsWithChars : List Char → List Char → Bool
  | [], _ => true
  | _ :: _, [] => false
  | p :: ps, c :: cs => p = c && startsWithChars ps cs

/-- Modelled from the spec: stringifyAutomergeUrl renders an identifier as
the scheme prefix, the identifier text, and the checksum character. -/
def stringifyAutomergeUrl (id : DocumentId) : AutomergeUrl :=
  urlScheme ++ id ++ [checksumChar id]

/-- Modelled from the spec: isValidAutomergeUrl, the pure boolean guard.  It
requires the scheme prefix, a nonempty identifier and a matching trailing
checksum. -/
def isValidAutomergeUrl (u : List Char) : Bool :=
  startsWithChars urlScheme u &&
    decide (2 ≤ (u.drop urlScheme.length).length) &&
    decide ((u.drop urlScheme.length).getLast? =
      some (checksumChar (u.drop urlScheme.length).dropLast))

/-- Modelled from the spec: parseAutomergeUrl recovers the document
identifier from a url, failing (the source throws) when validation fails. -/
def parseAutomergeUrl (u : List Char) : Option DocumentId :=
  if isValidAutomergeUrl u then some ((u.drop urlScheme.length).dropLast)
  else none

/-- Modelled from the spec: the identifier text produced for the n-th freshly
generated document; generation is random in the source, embedded as a seed
supplied from outside.  Generated identifiers are nonempty. -/
def genDocumentId (n : Nat) : DocumentId :=
  'd' :: Nat.toDigits 10 n

/-- Modelled from the spec: generateAutomergeUrl builds the url of a freshly
generated identifier. -/
def generateAutomergeUrl (n : Nat) : AutomergeUrl :=
  stringifyAutomergeUrl (genDocumentId n)

/-! ## Registry state -/

/-- References identify allocated handle objects: two handle values are the
same instance exactly when their references are equal. -/
abbrev HandleRef := Nat

/-- Events observable from the registry: the collection-level `document` and
`delete-document` emissions, and the handle-level `delete` and `unavailable`
emissions produced through a handle. -/
inductive RepoEvent where
  | document (handle : HandleRef)
  | deleteDocument (documentId : DocumentId)
  | handleDelete (handle : HandleRef)
  | handleUnavailable (handle : HandleRef)
deriving DecidableEq, Repr

/-- Lookup in an association list, first match wins. -/
def assocLookup {α β : Type} [DecidableEq α] : List (α × β) → α → Option β
  | [], _ => none
  | (a, b) :: t, k => if a = k then some b else assocLookup t k

/-- State of one DocCollection: the allocation counter and heap of handle
objects, the private handleCache field, the log of synchronously emitted
events (oldest first), and the queue of deferred emissions scheduled by
`setTimeout` (they fire only after the current call returns). -/
structure DocCollection where
  nextRef : Nat
  heap : List (HandleRef × DocHandle)
  handleCache : List (DocumentId × HandleRef)
  events : List RepoEvent
  pending : List RepoEvent
deriving DecidableEq, Repr

/-- A freshly constructed DocCollection: empty cache, no allocations, no
events. -/
def DocCollection.init : DocCollection :=
  { nextRef := 0, heap := [], handleCache := [], events := [], pending := [] }

/-- Errors thrown by the registry: the invalid-url rejection in `find`, and
the invalid-documentId rejection in the private getHandle. -/
inductive RepoError where
  | invalidUrl (u : List Char)
  | invalidDocumentId (id : List Char)
deriving DecidableEq, Repr

/-- Synchronous event emission appends to the event log. -/
def DocCollection.emit (s : DocCollection) (e : RepoEvent) : DocCollection :=
  { s with events := s.events ++ [e] }

/-- Update of the handle object stored at a reference. -/
def heapSet : List (HandleRef × DocHandle) → HandleRef →
    (DocHandle → DocHandle) → List (HandleRef × DocHandle)
  | [], _, _ => []
  | (a, h) :: t, r, f =>
    if a = r then (a, f h) :: heapSet t r f
    else (a, h) :: heapSet t r f

/-- The private getHandle: returns the cached handle for the identifier if
there is one; otherwise rejects a falsy (empty) identifier, then constructs
a new handle, caches it, and returns it. -/
def DocCollection.getHandle (s : DocCollection) (documentId : DocumentId)
    (isNew : Bool) : Except RepoError (HandleRef × DocCollection) :=
  match assocLookup s.handleCache documentId with
  | some r => .ok (r, s)
  | none =>
    if documentId = [] then .error (.invalidDocumentId documentId)
    else
      .ok (s.nextRef,
        { s with
          nextRef := s.nextRef + 1
          heap := (s.nextRef, mkDocHandle documentId isNew) :: s.heap
          handleCache := (documentId, s.nextRef) :: s.handleCache })

/-- By default, we share generously with all peers (the sharePolicy field
initializer of DocCollection). -/
def DocCollection.defaultSharePolicy : PeerId → DocumentId → Bool :=
  fun _ _ => true

/-- create: generates a fresh identifier through the codec, obtains a handle
for it with isNew = true, emits a `document` event carrying the handle, and
returns it.  Randomness of generation is embedded as the seed argument. -/
def DocCollection.create (s : DocCollection) (seed : Nat) :
    Except RepoError (HandleRef × DocCollection) :=
  match parseAutomergeUrl (generateAutomergeUrl seed) with
  | none => .error (.invalidUrl (generateAutomergeUrl seed))
  | some documentId =>
    match s.getHandle documentId true with
    | .error e => .error e
    | .ok (r, s₁) => .ok (r, s₁.emit (.document r))

/-- find: throws on an invalid url; on a cache hit returns the cached handle,
scheduling a deferred `unavailable` emission through the handle when it is
unavailable; on a miss constructs a handle with isNew = false, emits a
`document` event and returns it. -/
def DocCollection.find (s : DocCollection) (automergeUrl : AutomergeUrl) :
    Except RepoError (HandleRef × DocCollection) :=
  if ¬ isValidAutomergeUrl automergeUrl then
    .error (.invalidUrl automergeUrl)
  else
    match parseAutomergeUrl automergeUrl with
    | none => .error (.invalidUrl automergeUrl)
    | some documentId =>
      match assocLookup s.handleCache documentId with
      | some r =>
        match assocLookup s.heap r with
        | some h =>
          if h.isUnavailable then
            .ok (r, { s with pending := s.pending ++ [.handleUnavailable r] })
          else .ok (r, s)
        | none => .ok (r, s)
      | none =>
        match s.getHandle documentId false with
        | .error e => .error e
        | .ok (r, s₁) => .ok (r, s₁.emit (.document r))

/-- The identifier a `delete` argument resolves to: a valid url is parsed,
anything else is used verbatim as the identifier. -/
def resolveId (idOrUrl : List Char) : DocumentId :=
  if isValidAutomergeUrl idOrUrl then
    match parseAutomergeUrl idOrUrl with
    | some documentId => documentId
    | none => idOrUrl
  else idOrUrl

/-- delete: resolves the argument to an identifier, obtains the handle
(cached, or constructed transiently), performs the handle-level deletion,
removes the cache entry and emits `delete-document`. -/
def DocCollection.delete (s : DocCollection) (idOrUrl : List Char) :
    Except RepoError DocCollection :=
  let id := resolveId idOrUrl
  match s.getHandle id false with
  | .error e => .error e
  | .ok (r, s₁) =>
    let s₂ : DocCollection :=
      { s₁ with
        heap := heapSet s₁.heap r DocHandle.del
        events := s₁.events ++ [.handleDelete r] }
    let s₃ : DocCollection :=
      { s₂ with handleCache := s₂.handleCache.filter fun p => p.1 ≠ id }
    .ok (s₃.emit (.deleteDocument id))

/-- One application-facing operation on the registry. -/
inductive RepoOp where
  | create (seed : Nat)
  | find (url : AutomergeUrl)
  | delete (idOrUrl : List Char)

/-- Run one operation; a thrown error leaves the state as it was, since the
registry throws before mutating. -/
def applyOp (s : DocCollection) : RepoOp → DocCollection
  | .create seed =>
    match s.create seed with
    | .ok (_, s') => s'
    | .error _ => s
  | .find url =>
    match s.find url with
    | .ok (_, s') => s'
    | .error _ => s
  | .delete idOrUrl =>
    match s.delete idOrUrl with
    | .ok s' => s'
    | .error _ => s

/-- Run a sequence of operations from a state. -/
def runOps (s : DocCollection) : List RepoOp → DocCollection
  | [] => s
  | op :: ops => runOps (applyOp s op) ops

/-- Well-formedness of a registry state: cache keys are distinct, and every
cached reference points to an allocated handle carrying that nonempty
identifier. -/
def Wf (s : DocCollection) : Prop :=
  (s.handleCache.map Prod.fst).Nodup ∧
    ∀ id r, assocLookup s.handleCache id = some r →
      id ≠ [] ∧ ∃ h, assocLookup s.heap r = some h ∧ h.documentId = id

/-! ## Codec lemmas -/

theorem startsWithChars_append (p r : List Char) :
    startsWithChars p (p ++ r) = true := by
  induction p with
  | nil => rfl
  | cons a t ih => simp [startsWithChars, ih]

theorem drop_urlScheme (r : List Char) :
    (urlScheme ++ r).drop urlScheme.length = r :=
  List.drop_left urlScheme r

theorem isValid_stringify {id : DocumentId} (h : id ≠ []) :
    isValidAutomergeUrl (stringifyAutomergeUrl id) = true := by
  have hd : (stringifyAutomergeUrl id).drop urlScheme.length
      = id ++ [checksumChar id] := by
    rw [stringifyAutomergeUrl, List.append_assoc, drop_urlScheme]
  rw [isValidAutomergeUrl, hd, stringifyAutomergeUrl, List.append_assoc,
    startsWithChars_append]
  simp only [Bool.true_and, List.getLast?_concat, List.dropLast_concat,
    List.length_append, List.length_singleton, decide_eq_true_eq]
  have : 0 < id.length := List.length_pos.mpr h
  simp [Nat.succ_le_iff, this]

theorem parse_stringify {id : DocumentId} (h : id ≠ []) :
    parseAutomergeUrl (stringifyAutomergeUrl id) = some id := by
  have hd : (stringifyAutomergeUrl id).drop urlScheme.length
      = id ++ [checksumChar id] := by
    rw [stringifyAutomergeUrl, List.append_assoc, drop_urlScheme]
  rw [parseAutomergeUrl, if_pos (isValid_stringify h), hd,
    List.dropLast_concat]

theorem genDocumentId_ne_nil (n : Nat) : genDocumentId n ≠ [] := by
  simp [genDocumentId]

theorem parse_generate (n : Nat) :
    parseAutomergeUrl (generateAutomergeUrl n) = some (genDocumentId n) :=
  parse_stringify (genDocumentId_ne_nil n)

theorem parse_of_valid {u : List Char} (hv : isValidAutomergeUrl u = true) :
    parseAutomergeUrl u = some ((u.drop urlScheme.length).dropLast) := by
  rw [parseAutomergeUrl, if_pos hv]

theorem parse_valid_ne_nil {u : List Char} {id : DocumentId}
    (hv : isValidAutomergeUrl u = true)
    (hp : parseAutomergeUrl u = some id) : id ≠ [] := by
  rw [parse_of_valid hv] at hp
  have hlen : 2 ≤ (u.drop urlScheme.length).length := by
    rw [isValidAutomergeUrl] at hv
    simp only [Bool.and_eq_true, decide_eq_true_eq] at hv
    exact hv.1.2
  have : 0 < ((u.drop urlScheme.length).dropLast).length := by
    rw [List.length_dropLast]
    omega
  rw [Option.some_inj] at hp
  subst hp
  exact List.length_pos.mp this

/-! ## Claim theorems -/

/-- C8.  Codec round trip: every identifier produced by create (generated
from a seed) stringifies to a url that passes validation, and parsing that
url recovers the identifier. -/
theorem c8_codec_roundtrip : ∀ n : Nat,
    isValidAutomergeUrl (stringifyAutomergeUrl (genDocumentId n)) = true ∧
    parseAutomergeUrl (stringifyAutomergeUrl (genDocumentId n))
      = some (genDocumentId n) :=
  fun n => ⟨isValid_stringify (genDocumentId_ne_nil n),
    parse_stringify (genDocumentId_ne_nil n)⟩

/-- C10.  The default share policy discloses unconditionally: it returns
true for every peer and every document. -/
theorem c10_default_share_policy_true :
    ∀ (p : PeerId) (d : DocumentId),
      DocCollection.defaultSharePolicy p d = true :=
  fun _ _ => rfl

/-- C3.  On a url that fails codec validation, find throws InvalidUrlError
and the registry state is untouched: no cache change, no handle
construction, no event. -/
theorem c3_find_invalid_url (s : DocCollection) (url : AutomergeUrl)
    (hv : isValidAutomergeUrl url = false) :
    s.find url = .error (.invalidUrl url) ∧ applyOp s (.find url) = s := by
  have hf : s.find url = .error (.invalidUrl url) := by
    rw [DocCollection.find, if_pos (by simp [hv])]
  exact ⟨hf, by rw [applyOp, hf]⟩

/-- Witness for C3 at the empty url, which fails validation. -/
theorem c3_find_invalid_url_witness :
    DocCollection.init.find [] = .error (.invalidUrl []) ∧
      applyOp DocCollection.init (.find []) = DocCollection.init :=
  c3_find_invalid_url DocCollection.init [] (by decide)

/-- C4.  create with a fresh identifier (freshness of random generation is
the hypothesis): the generated identifier comes from the codec, the handle
is constructed directly in the ready state with the empty value (it never
passes through loading or requesting), it is cached under the identifier,
one `document` event carrying it is emitted, and it is returned. -/
theorem c4_create_spec (s : DocCollection) (seed : Nat)
    (hfresh : assocLookup s.handleCache (genDocumentId seed) = none) :
    s.create seed = .ok (s.nextRef,
      { s with
        nextRef := s.nextRef + 1
        heap := (s.nextRef,
          { documentId := genDocumentId seed, isNew := true,
            state := .ready, doc := some .emptyDoc }) :: s.heap
        handleCache := (genDocumentId seed, s.nextRef) :: s.handleCache
        events := s.events ++ [.document s.nextRef] }) := by
  have hne := genDocumentId_ne_nil seed
  simp only [DocCollection.create, parse_generate, DocCollection.getHandle,
    hfresh, mkDocHandle, DocCollection.emit, ne_eq, hne, if_false,
    if_true, ite_false, ite_true]

/-- Witness for C4: create on the fresh registry with seed zero. -/
theorem c4_create_spec_witness :
    DocCollection.init.create 0 = .ok (0,
      { nextRef := 1
        heap := [(0,
          { documentId := genDocumentId 0, isNew := true,
            state := .ready, doc := some .emptyDoc })]
        handleCache := [(genDocumentId 0, 0)]
        events := [.document 0]
        pending := [] }) :=
  c4_create_spec DocCollection.init 0 rfl

/-- C7.  find on a valid url whose identifier is not cached: a handle is
constructed with isNew = false, hence in the loading state and with no
value, it is cached under the identifier, one `document` event carrying it
is emitted, and it is returned. -/
theorem c7_find_uncached (s : DocCollection) (url : AutomergeUrl)
    (id : DocumentId) (hv : isValidAutomergeUrl url = true)
    (hp : parseAutomergeUrl url = some id)
    (hc : assocLookup s.handleCache id = none) :
    s.find url = .ok (s.nextRef,
      { s with
        nextRef := s.nextRef + 1
        heap := (s.nextRef,
          { documentId := id, isNew := false,
            state := .loading, doc := none }) :: s.heap
        handleCache := (id, s.nextRef) :: s.handleCache
        events := s.events ++ [.document s.nextRef] }) := by
  have hne := parse_valid_ne_nil hv hp
  simp only [DocCollection.find, hv, hp, hc, DocCollection.getHandle,
    mkDocHandle, DocCollection.emit, ne_eq, hne, not_true_eq_false,
    if_false, if_true, ite_false, ite_true, Bool.false_eq_true]

/-- Witness for C7: find on the fresh registry with a concrete valid url. -/
theorem c7_find_uncached_witness :
    DocCollection.init.find (stringifyAutomergeUrl ['d']) = .ok (0,
      { nextRef := 1
        heap := [(0,
          { documentId := ['d'], isNew := false,
            state := .loading, doc := none })]
        handleCache := [(['d'], 0)]
        events := [.document 0]
        pending := [] }) :=
  c7_find_uncached DocCollection.init (stringifyAutomergeUrl ['d']) ['d']
    (by decide) (by decide) rfl


/-! ## Association list and getHandle lemmas -/

theorem assocLookup_eq_none {α β : Type} [DecidableEq α]
    {l : List (α × β)} {k : α} :
    assocLookup l k = none ↔ k ∉ l.map Prod.fst := by
  induction l with
  | nil => simp [assocLookup]
  | cons p t ih =>
    obtain ⟨a, b⟩ := p
    by_cases h : a = k
    · subst h
      simp [assocLookup]
    · simp [assocLookup, h, ih, Ne.symm h]

theorem assocLookup_mem {α β : Type} [DecidableEq α]
    {l : List (α × β)} {k : α} {b : β}
    (h : assocLookup l k = some b) : (k, b) ∈ l := by
  induction l with
  | nil => simp [assocLookup] at h
  | cons p t ih =>
    obtain ⟨a, c⟩ := p
    by_cases ha : a = k
    · subst ha
      simp only [assocLookup, if_pos] at h
      rw [Option.some_inj] at h
      subst h
      exact List.mem_cons_self _ _
    · rw [assocLookup, if_neg ha] at h
      exact List.mem_cons_of_mem _ (ih h)

theorem assocLookup_filter_self {α β : Type} [DecidableEq α]
    (l : List (α × β)) (k : α) :
    assocLookup (l.filter fun p => p.1 ≠ k) k = none := by
  rw [assocLookup_eq_none]
  intro hmem
  obtain ⟨p, hp, hfst⟩ := List.mem_map.mp hmem
  have := List.of_mem_filter hp
  simp only [ne_eq, decide_eq_true_eq] at this
  exact this hfst

theorem filter_key_nodup {α β : Type} [DecidableEq α]
    {l : List (α × β)} (k : α)
    (hn : (l.map Prod.fst).Nodup) :
    ((l.filter fun p => p.1 ≠ k).map Prod.fst).Nodup :=
  hn.sublist (List.Sublist.map Prod.fst (List.filter_sublist l))

/-- Characterization of the private getHandle on success: either the
identifier was cached and the state is untouched, or a fresh handle was
allocated, cached and returned. -/
theorem getHandle_cases {s : DocCollection} {id : DocumentId} {isNew : Bool}
    {r : HandleRef} {s' : DocCollection}
    (h : s.getHandle id isNew = .ok (r, s')) :
    (s' = s ∧ assocLookup s.handleCache id = some r) ∨
      (assocLookup s.handleCache id = none ∧ id ≠ [] ∧ r = s.nextRef ∧
        s' = { s with
          nextRef := s.nextRef + 1
          heap := (s.nextRef, mkDocHandle id isNew) :: s.heap
          handleCache := (id, s.nextRef) :: s.handleCache }) := by
  rw [DocCollection.getHandle] at h
  cases hc : assocLookup s.handleCache id with
  | some r0 =>
    simp only [hc, Except.ok.injEq, Prod.mk.injEq] at h
    obtain ⟨h1, h2⟩ := h
    subst h1
    subst h2
    exact Or.inl ⟨rfl, rfl⟩
  | none =>
    simp only [hc] at h
    by_cases hid : id = []
    · rw [if_pos hid] at h
      cases h
    · rw [if_neg hid] at h
      simp only [Except.ok.injEq, Prod.mk.injEq] at h
      obtain ⟨h1, h2⟩ := h
      exact Or.inr ⟨rfl, hid, h1.symm, h2.symm⟩

/-- Characterization of create on success: it is getHandle on the generated
identifier, followed by one `document` event. -/
theorem create_cases {s : DocCollection} {seed : Nat} {r : HandleRef}
    {s₁ : DocCollection} (h : s.create seed = .ok (r, s₁)) :
    ∃ s₂, s.getHandle (genDocumentId seed) true = .ok (r, s₂) ∧
      s₁ = s₂.emit (.document r) := by
  simp only [DocCollection.create, parse_generate] at h
  cases hg : s.getHandle (genDocumentId seed) true with
  | error e => simp [hg] at h
  | ok rs =>
    obtain ⟨r₂, s₂⟩ := rs
    simp only [hg, Except.ok.injEq, Prod.mk.injEq] at h
    obtain ⟨h1, h2⟩ := h
    subst h1
    exact ⟨s₂, rfl, h2.symm⟩

/-- Characterization of delete on success: it is getHandle on the resolved
identifier, the handle-level deletion on the obtained reference, the cache
removal and the two emissions. -/
theorem delete_cases {s : DocCollection} {idOrUrl : List Char}
    {s' : DocCollection} (h : s.delete idOrUrl = .ok s') :
    ∃ r s₁, s.getHandle (resolveId idOrUrl) false = .ok (r, s₁) ∧
      s' = { s₁ with
        heap := heapSet s₁.heap r DocHandle.del
        handleCache := s₁.handleCache.filter fun p => p.1 ≠ resolveId idOrUrl
        events := (s₁.events ++ [.handleDelete r])
          ++ [.deleteDocument (resolveId idOrUrl)] } := by
  rw [DocCollection.delete] at h
  cases hg : s.getHandle (resolveId idOrUrl) false with
  | error e => simp [hg] at h
  | ok rs =>
    obtain ⟨r, s₁⟩ := rs
    simp only [hg, DocCollection.emit, Except.ok.injEq] at h
    exact ⟨r, s₁, rfl, h.symm⟩

/-- Characterization of find on success. -/
theorem find_cases {s : DocCollection} {url : AutomergeUrl} {r : HandleRef}
    {s' : DocCollection} (h : s.find url = .ok (r, s')) :
    ∃ id, isValidAutomergeUrl url = true ∧ parseAutomergeUrl url = some id ∧
      ((∃ hdl, assocLookup s.handleCache id = some r ∧
          assocLookup s.heap r = some hdl ∧
          ((hdl.isUnavailable = true ∧
              s' = { s with
                pending := s.pending ++ [.handleUnavailable r] }) ∨
            (hdl.isUnavailable = false ∧ s' = s))) ∨
        (assocLookup s.handleCache id = some r ∧
          assocLookup s.heap r = none ∧ s' = s) ∨
        (assocLookup s.handleCache id = none ∧ id ≠ [] ∧ r = s.nextRef ∧
          s' = { s with
            nextRef := s.nextRef + 1
            heap := (s.nextRef, mkDocHandle id false) :: s.heap
            handleCache := (id, s.nextRef) :: s.handleCache
            events := s.events ++ [.document s.nextRef] })) := by
  by_cases hv : isValidAutomergeUrl url = true
  · refine ⟨(url.drop urlScheme.length).dropLast, hv, parse_of_valid hv, ?_⟩
    rw [DocCollection.find, if_neg (by simp [hv])] at h
    rw [parse_of_valid hv] at h
    cases hc : assocLookup s.handleCache
        ((url.drop urlScheme.length).dropLast) with
    | some r0 =>
      simp only [hc] at h
      cases hh : assocLookup s.heap r0 with
      | some hdl =>
        simp only [hh] at h
        by_cases hu : hdl.isUnavailable = true
        · rw [if_pos hu] at h
          simp only [Except.ok.injEq, Prod.mk.injEq] at h
          obtain ⟨h1, h2⟩ := h
          subst h1
          exact Or.inl ⟨hdl, rfl, hh, Or.inl ⟨hu, h2.symm⟩⟩
        · rw [if_neg hu] at h
          simp only [Except.ok.injEq, Prod.mk.injEq] at h
          obtain ⟨h1, h2⟩ := h
          subst h1
          exact Or.inl ⟨hdl, rfl, hh,
            Or.inr ⟨Bool.not_eq_true _ ▸ hu, h2.symm⟩⟩
      | none =>
        simp only [hh, Except.ok.injEq, Prod.mk.injEq] at h
        obtain ⟨h1, h2⟩ := h
        subst h1
        exact Or.inr (Or.inl ⟨rfl, hh, h2.symm⟩)
    | none =>
      simp only [hc] at h
      cases hg : s.getHandle ((url.drop urlScheme.length).dropLast) false with
      | error e => simp [hg] at h
      | ok rs =>
        obtain ⟨r₁, s₂⟩ := rs
        simp only [hg, Except.ok.injEq, Prod.mk.injEq] at h
        obtain ⟨h1, h2⟩ := h
        subst h1
        rcases getHandle_cases hg with ⟨_, hcc⟩ | ⟨_, hid, hr, hs⟩
        · rw [hc] at hcc
          cases hcc
        · refine Or.inr (Or.inr ⟨rfl, hid, hr, ?_⟩)
          rw [← h2, hs, hr]
          rfl
  · rw [DocCollection.find, if_pos (by simpa using hv)] at h
    cases h

/-- Keys of the cache stay distinct across one successful getHandle. -/
theorem getHandle_nodup {s : DocCollection} {id : DocumentId} {isNew : Bool}
    {r : HandleRef} {s' : DocCollection}
    (h : s.getHandle id isNew = .ok (r, s'))
    (hn : (s.handleCache.map Prod.fst).Nodup) :
    (s'.handleCache.map Prod.fst).Nodup := by
  rcases getHandle_cases h with ⟨hs, _⟩ | ⟨hc, _, hr, hs⟩
  · rw [hs]
    exact hn
  · rw [hs]
    simp only [List.map_cons, List.nodup_cons]
    exact ⟨assocLookup_eq_none.mp hc, hn⟩

/-- Keys of the cache stay distinct across any one registry operation. -/
theorem nodup_applyOp (s : DocCollection) (op : RepoOp)
    (hn : (s.handleCache.map Prod.fst).Nodup) :
    ((applyOp s op).handleCache.map Prod.fst).Nodup := by
  cases op with
  | create seed =>
    cases hres : s.create seed with
    | error e => simpa [applyOp, hres] using hn
    | ok rs =>
      obtain ⟨r, s₁⟩ := rs
      simp only [applyOp, hres]
      obtain ⟨s₂, hg, hs⟩ := create_cases hres
      rw [hs]
      have h2 := getHandle_nodup hg hn
      simpa [DocCollection.emit] using h2
  | find url =>
    cases hres : s.find url with
    | error e => simpa [applyOp, hres] using hn
    | ok rs =>
      obtain ⟨r, s₁⟩ := rs
      simp only [applyOp, hres]
      obtain ⟨id, hv, hp, hcase⟩ := find_cases hres
      rcases hcase with ⟨hdl, hc, hh, ⟨_, hs⟩ | ⟨_, hs⟩⟩ | ⟨hc, hh, hs⟩ |
          ⟨hc, hid, hr, hs⟩
      · rw [hs]
        exact hn
      · rw [hs]
        exact hn
      · rw [hs]
        exact hn
      · rw [hs]
        simp only [List.map_cons, List.nodup_cons]
        exact ⟨assocLookup_eq_none.mp hc, hn⟩
  | delete idOrUrl =>
    cases hres : s.delete idOrUrl with
    | error e => simpa [applyOp, hres] using hn
    | ok s₁ =>
      simp only [applyOp, hres]
      obtain ⟨r, s₂, hg, hs⟩ := delete_cases hres
      rw [hs]
      exact filter_key_nodup _ (getHandle_nodup hg hn)

/-- Keys of the cache stay distinct across any sequence of operations. -/
theorem nodup_runOps (ops : List RepoOp) (s : DocCollection)
    (hn : (s.handleCache.map Prod.fst).Nodup) :
    ((runOps s ops).handleCache.map Prod.fst).Nodup := by
  induction ops generalizing s with
  | nil => exact hn
  | cons op ops ih => exact ih _ (nodup_applyOp s op hn)

/-- A concrete url used by the counterexamples and witnesses. -/
def exUrl : AutomergeUrl := stringifyAutomergeUrl ['d']

/-- C1 counterexample.  The identifier IS reused after deletion: starting
from the fresh registry, find allocates handle 0 for the identifier, delete
removes it, and a second find allocates a distinct handle 1 for the very
same identifier, so two handle objects for one identifier exist within the
lifetime of the process. -/
theorem c1_second_handle_after_delete :
    (DocCollection.init.find exUrl).map Prod.fst = .ok 0 ∧
      ((runOps DocCollection.init [.find exUrl, .delete exUrl]).find
        exUrl).map Prod.fst = .ok 1 ∧
      assocLookup (runOps DocCollection.init
        [.find exUrl, .delete exUrl, .find exUrl]).heap 0 =
        some { documentId := ['d'], isNew := false,
               state := .deleted, doc := none } ∧
      assocLookup (runOps DocCollection.init
        [.find exUrl, .delete exUrl, .find exUrl]).heap 1 =
        some { documentId := ['d'], isNew := false,
               state := .loading, doc := none } ∧
      (0 : HandleRef) ≠ 1 :=
  ⟨rfl, rfl, rfl, rfl, by decide⟩

/-- C1 amended.  At any given time the cache maps each identifier to at
most one handle: its keys stay distinct through every sequence of
create, find and delete operations from a fresh registry.  (After a delete,
however, a later find for the same identifier allocates a fresh second
handle object, as the counterexample shows.) -/
theorem c1_cache_at_most_one_handle (ops : List RepoOp) :
    (((runOps DocCollection.init ops).handleCache.map Prod.fst)).Nodup :=
  nodup_runOps ops DocCollection.init List.nodup_nil

/-- Computation of find on a cache hit whose reference resolves in the
heap: the cached handle is returned, and exactly when it is unavailable one
deferred notification is scheduled. -/
theorem find_hit {s : DocCollection} {url : AutomergeUrl} {id : DocumentId}
    {r : HandleRef} {hdl : DocHandle}
    (hv : isValidAutomergeUrl url = true)
    (hp : parseAutomergeUrl url = some id)
    (hc : assocLookup s.handleCache id = some r)
    (hh : assocLookup s.heap r = some hdl) :
    s.find url = .ok (r,
      if hdl.isUnavailable = true
      then { s with pending := s.pending ++ [.handleUnavailable r] }
      else s) := by
  rw [DocCollection.find, if_neg (by simp [hv]), hp]
  simp only [hc, hh]
  by_cases hu : hdl.isUnavailable = true <;> simp [hu]

/-- Computation of find on a cache hit whose reference does not resolve in
the heap (never the case in a well-formed state): the reference is returned
and nothing changes. -/
theorem find_hit_noheap {s : DocCollection} {url : AutomergeUrl}
    {id : DocumentId} {r : HandleRef}
    (hv : isValidAutomergeUrl url = true)
    (hp : parseAutomergeUrl url = some id)
    (hc : assocLookup s.handleCache id = some r)
    (hh : assocLookup s.heap r = none) :
    s.find url = .ok (r, s) := by
  rw [DocCollection.find, if_neg (by simp [hv]), hp]
  simp only [hc, hh]

/-- Lookup after a pointwise heap update at the looked-up reference. -/
theorem assocLookup_heapSet (heap : List (HandleRef × DocHandle))
    (r : HandleRef) (f : DocHandle → DocHandle) :
    assocLookup (heapSet heap r f) r = (assocLookup heap r).map f := by
  induction heap with
  | nil => rfl
  | cons p t ih =>
    obtain ⟨a, hdl⟩ := p
    by_cases ha : a = r
    · subst ha
      simp [heapSet, assocLookup]
    · simp [heapSet, assocLookup, ha, ih]

/-- The private getHandle fails only on an uncached empty identifier, and
then with the invalid-documentId error. -/
theorem getHandle_error {s : DocCollection} {id : DocumentId} {isNew : Bool}
    {e : RepoError} (h : s.getHandle id isNew = .error e) :
    e = .invalidDocumentId id ∧
      assocLookup s.handleCache id = none ∧ id = [] := by
  rw [DocCollection.getHandle] at h
  cases hc : assocLookup s.handleCache id with
  | some r => simp [hc] at h
  | none =>
    simp only [hc] at h
    by_cases hid : id = []
    · rw [if_pos hid] at h
      simp only [Except.error.injEq] at h
      exact ⟨h.symm, rfl, hid⟩
    · rw [if_neg hid] at h
      cases h

/-- An argument that fails url validation is resolved verbatim. -/
theorem resolveId_invalid {a : List Char}
    (h : isValidAutomergeUrl a = false) : resolveId a = a := by
  simp [resolveId, h]

/-- Computation of delete when the resolved identifier is cached. -/
theorem delete_hit {s : DocCollection} {idOrUrl : List Char} {r : HandleRef}
    (hcc : assocLookup s.handleCache (resolveId idOrUrl) = some r) :
    s.delete idOrUrl = .ok { s with
      heap := heapSet s.heap r DocHandle.del
      handleCache := s.handleCache.filter fun p => p.1 ≠ resolveId idOrUrl
      events := (s.events ++ [.handleDelete r])
        ++ [.deleteDocument (resolveId idOrUrl)] } := by
  rw [DocCollection.delete]
  simp only [DocCollection.getHandle, hcc, DocCollection.emit]

/-- Computation of delete when the resolved identifier is not cached but is
nonempty: a transient handle is allocated and deleted. -/
theorem delete_miss {s : DocCollection} {idOrUrl : List Char}
    (hcc : assocLookup s.handleCache (resolveId idOrUrl) = none)
    (hne : resolveId idOrUrl ≠ []) :
    s.delete idOrUrl = .ok { s with
      nextRef := s.nextRef + 1
      heap := (s.nextRef, (mkDocHandle (resolveId idOrUrl) false).del)
        :: heapSet s.heap s.nextRef DocHandle.del
      handleCache := s.handleCache.filter fun p => p.1 ≠ resolveId idOrUrl
      events := (s.events ++ [.handleDelete s.nextRef])
        ++ [.deleteDocument (resolveId idOrUrl)] } := by
  rw [DocCollection.delete]
  simp only [DocCollection.getHandle, hcc, ne_eq, hne, ite_false, if_false,
    DocCollection.emit, heapSet, ite_true, if_true, List.filter_cons,
    decide_not, Except.ok.injEq]
  simp

/-- A concrete registry whose only cached handle is unavailable, as the
Synchronization Router leaves it when neither storage nor any peer supplied
the document. -/
def unavailState : DocCollection :=
  { nextRef := 1
    heap := [(0, { documentId := ['d'], isNew := false,
                   state := .unavailable, doc := none })]
    handleCache := [(['d'], 0)]
    events := []
    pending := [] }

/-- C6.  find on a cached identifier returns the existing handle; exactly
when that handle is unavailable, exactly one deferred `unavailable`
notification is scheduled (appended to the pending queue, so it fires only
after the call has returned and an observer subscribing immediately after
the call still sees it); otherwise the state is unchanged and nothing is
emitted. -/
theorem c6_find_cached_unavailable (s : DocCollection) (url : AutomergeUrl)
    (id : DocumentId) (r : HandleRef) (hdl : DocHandle)
    (hv : isValidAutomergeUrl url = true)
    (hp : parseAutomergeUrl url = some id)
    (hc : assocLookup s.handleCache id = some r)
    (hh : assocLookup s.heap r = some hdl) :
    s.find url = .ok (r,
      if hdl.state = .unavailable
      then { s with pending := s.pending ++ [.handleUnavailable r] }
      else s) := by
  have h2 := find_hit hv hp hc hh
  by_cases hu : hdl.state = .unavailable
  · rw [if_pos hu]
    rw [if_pos (by simp [DocHandle.isUnavailable, hu])] at h2
    exact h2
  · rw [if_neg hu]
    rw [if_neg (by simp [DocHandle.isUnavailable, hu])] at h2
    exact h2

/-- Witness for C6: find on the registry holding an unavailable handle
returns that handle and schedules the deferred notification. -/
theorem c6_find_cached_unavailable_witness :
    unavailState.find exUrl =
      .ok (0, { unavailState with pending := [.handleUnavailable 0] }) := by
  have h := c6_find_cached_unavailable unavailState exUrl ['d'] 0
    { documentId := ['d'], isNew := false,
      state := .unavailable, doc := none }
    (by decide) (by decide) rfl rfl
  simpa using h

/-- C2 counterexample.  On a registry whose cached handle is unavailable,
the second find with the same valid url does have a side effect beyond the
first: it schedules one more deferred `unavailable` notification, so the
resulting states differ. -/
theorem c2_second_find_schedules_again :
    DocCollection.find unavailState exUrl =
      .ok (0, { unavailState with pending := [.handleUnavailable 0] }) ∧
      DocCollection.find
          { unavailState with pending := [.handleUnavailable 0] } exUrl =
        .ok (0, { unavailState with
          pending := [.handleUnavailable 0, .handleUnavailable 0] }) ∧
      ¬ ({ unavailState with
            pending := [.handleUnavailable 0, .handleUnavailable 0] } =
          { unavailState with pending := [.handleUnavailable 0] }) :=
  ⟨rfl, rfl, by decide⟩

/-- C2 amended.  find twice with the same url returns the identical handle
instance both times, and the second call emits no second `document` event
and changes no cache, heap or allocation state; the one side effect it may
have is that, when the cached handle is unavailable, it schedules one more
deferred `unavailable` notification, exactly as the first call did. -/
theorem c2_find_twice_same_handle (s : DocCollection) (url : AutomergeUrl)
    (r : HandleRef) (s₁ : DocCollection)
    (h : s.find url = .ok (r, s₁)) :
    ∃ s₂, s₁.find url = .ok (r, s₂) ∧
      s₂.handleCache = s₁.handleCache ∧ s₂.heap = s₁.heap ∧
      s₂.nextRef = s₁.nextRef ∧ s₂.events = s₁.events ∧
      (s₂.pending = s₁.pending ∨
        s₂.pending = s₁.pending ++ [.handleUnavailable r]) := by
  obtain ⟨id, hv, hp, hcase⟩ := find_cases h
  rcases hcase with ⟨hdl, hc, hh, ⟨hu, hs⟩ | ⟨hu, hs⟩⟩ | ⟨hc, hh, hs⟩ |
      ⟨hc, hid, hr, hs⟩
  · have h2 := @find_hit s₁ url id r hdl hv hp
      (by rw [hs]; exact hc) (by rw [hs]; exact hh)
    rw [if_pos (by simp [hu])] at h2
    exact ⟨_, h2, rfl, rfl, rfl, rfl, Or.inr rfl⟩
  · have h2 := @find_hit s₁ url id r hdl hv hp
      (by rw [hs]; exact hc) (by rw [hs]; exact hh)
    rw [if_neg (by simp [hu])] at h2
    exact ⟨s₁, h2, rfl, rfl, rfl, rfl, Or.inl rfl⟩
  · have h2 := @find_hit_noheap s₁ url id r hv hp
      (by rw [hs]; exact hc) (by rw [hs]; exact hh)
    exact ⟨s₁, h2, rfl, rfl, rfl, rfl, Or.inl rfl⟩
  · subst hr
    have hc₁ : assocLookup s₁.handleCache id = some s.nextRef := by
      rw [hs]
      simp [assocLookup]
    have hh₁ : assocLookup s₁.heap s.nextRef
        = some (mkDocHandle id false) := by
      rw [hs]
      simp [assocLookup]
    have h2 := @find_hit s₁ url id s.nextRef (mkDocHandle id false)
      hv hp hc₁ hh₁
    rw [if_neg (by simp [mkDocHandle, DocHandle.isUnavailable])] at h2
    exact ⟨s₁, h2, rfl, rfl, rfl, rfl, Or.inl rfl⟩

/-- Witness for C2 amended: the second find from the fresh registry after a
first find of the same url. -/
theorem c2_find_twice_same_handle_witness :
    ∃ s₂, (runOps DocCollection.init [.find exUrl]).find exUrl
        = .ok (0, s₂) ∧
      s₂.handleCache = (runOps DocCollection.init [.find exUrl]).handleCache ∧
      s₂.heap = (runOps DocCollection.init [.find exUrl]).heap ∧
      s₂.nextRef = (runOps DocCollection.init [.find exUrl]).nextRef ∧
      s₂.events = (runOps DocCollection.init [.find exUrl]).events ∧
      (s₂.pending = (runOps DocCollection.init [.find exUrl]).pending ∨
        s₂.pending = (runOps DocCollection.init [.find exUrl]).pending
          ++ [.handleUnavailable 0]) :=
  c2_find_twice_same_handle DocCollection.init exUrl 0
    (runOps DocCollection.init [.find exUrl]) rfl

/-- C5.  delete resolves its argument to an identifier, performs the
handle-level deletion on the cached handle for it (on a transiently
constructed one when nothing is cached, so a deletion notification is
always produced), removes the cache entry, and emits `delete-document`
carrying the identifier. -/
theorem c5_delete_resolves_and_removes (s : DocCollection)
    (idOrUrl : List Char)
    (hwf : ∀ p ∈ s.handleCache,
      ∃ hdl, assocLookup s.heap p.2 = some hdl ∧ hdl.documentId = p.1)
    (hne : resolveId idOrUrl ≠ []) :
    ∃ r s', s.delete idOrUrl = .ok s' ∧
      (match assocLookup s.handleCache (resolveId idOrUrl) with
        | some r0 => r = r0
        | none => r = s.nextRef) ∧
      (∃ hdl, assocLookup s'.heap r = some hdl ∧ hdl.state = .deleted ∧
        hdl.documentId = resolveId idOrUrl) ∧
      s'.events = s.events ++ [.handleDelete r,
        .deleteDocument (resolveId idOrUrl)] ∧
      assocLookup s'.handleCache (resolveId idOrUrl) = none := by
  cases hcc : assocLookup s.handleCache (resolveId idOrUrl) with
  | some r0 =>
    obtain ⟨hdl, hh, hid⟩ := hwf _ (assocLookup_mem hcc)
    refine ⟨r0, _, delete_hit hcc, rfl, ?_, ?_, ?_⟩
    · refine ⟨hdl.del, ?_, rfl, ?_⟩
      · show assocLookup (heapSet s.heap r0 DocHandle.del) r0
            = some hdl.del
        rw [assocLookup_heapSet, hh]
        rfl
      · show hdl.del.documentId = resolveId idOrUrl
        simpa [DocHandle.del] using hid
    · show (s.events ++ [.handleDelete r0])
          ++ [.deleteDocument (resolveId idOrUrl)] = _
      simp
    · exact assocLookup_filter_self _ _
  | none =>
    refine ⟨s.nextRef, _, delete_miss hcc hne, rfl, ?_, ?_, ?_⟩
    · exact ⟨(mkDocHandle (resolveId idOrUrl) false).del,
        by simp [assocLookup], rfl, rfl⟩
    · show (s.events ++ [.handleDelete s.nextRef])
          ++ [.deleteDocument (resolveId idOrUrl)] = _
      simp
    · exact assocLookup_filter_self _ _

/-- Witness for C5: delete on the fresh registry with a plain identifier
argument. -/
theorem c5_delete_resolves_and_removes_witness :
    ∃ r s', DocCollection.init.delete ['y'] = .ok s' ∧
      (match assocLookup DocCollection.init.handleCache (resolveId ['y']) with
        | some r0 => r = r0
        | none => r = DocCollection.init.nextRef) ∧
      (∃ hdl, assocLookup s'.heap r = some hdl ∧ hdl.state = .deleted ∧
        hdl.documentId = resolveId ['y']) ∧
      s'.events = DocCollection.init.events ++ [.handleDelete r,
        .deleteDocument (resolveId ['y'])] ∧
      assocLookup s'.handleCache (resolveId ['y']) = none :=
  c5_delete_resolves_and_removes DocCollection.init ['y']
    (by intro p hp; simp [DocCollection.init] at hp) (by decide)

/-- C9.  delete never throws InvalidUrlError; a nonempty argument that
fails url validation is used verbatim as the identifier: when it is not
cached, a transient handle carrying the unvalidated identifier is
allocated and deleted, and `delete-document` carries the verbatim
argument. -/
theorem c9_delete_never_invalid_url :
    (∀ (s : DocCollection) (a u : List Char),
        s.delete a ≠ .error (.invalidUrl u)) ∧
      ∀ (s : DocCollection) (arg : List Char), arg ≠ [] →
        isValidAutomergeUrl arg = false →
        assocLookup s.handleCache arg = none →
        s.delete arg = .ok { s with
          nextRef := s.nextRef + 1
          heap := (s.nextRef,
              { documentId := arg, isNew := false,
                state := .deleted, doc := none })
            :: heapSet s.heap s.nextRef DocHandle.del
          handleCache := s.handleCache.filter fun p => p.1 ≠ arg
          events := (s.events ++ [.handleDelete s.nextRef])
            ++ [.deleteDocument arg] } := by
  constructor
  · intro s a u h
    rw [DocCollection.delete] at h
    cases hg : s.getHandle (resolveId a) false with
    | error e =>
      simp only [hg] at h
      obtain ⟨he, -, -⟩ := getHandle_error hg
      rw [he] at h
      simp at h
    | ok rs =>
      obtain ⟨r, s₁⟩ := rs
      simp only [hg] at h
      simp at h
  · intro s arg hne hinv hcc
    have hres := resolveId_invalid hinv
    have hcc₂ : assocLookup s.handleCache (resolveId arg) = none := by
      rw [hres]
      exact hcc
    have hne₂ : resolveId arg ≠ [] := by
      rw [hres]
      exact hne
    have h := delete_miss hcc₂ hne₂
    rw [hres] at h
    exact h

/-- Witness for C9: delete of a plain nonempty non-url string on the fresh
registry succeeds and carries the string verbatim. -/
theorem c9_delete_never_invalid_url_witness :
    DocCollection.init.delete ['x'] = .ok
      { nextRef := 1
        heap := [(0, { documentId := ['x'], isNew := false,
                       state := .deleted, doc := none })]
        handleCache := []
        events := [.handleDelete 0, .deleteDocument ['x']]
        pending := [] } :=
  c9_delete_never_invalid_url.2 DocCollection.init ['x']
    (by decide) (by decide) rfl
